import Mathlib

/-!
Verification of the npmenv environment-identity and file-linkage subsystem
(`npmenv.py`) against its natural-language specification.

The Python source is shallowly embedded: pure helpers become Lean
functions, filesystem-touching operations become functions over explicit
filesystem models, and exceptions become `Except` results.  Each public
operation keeps its source name where Lean allows it.
-/

namespace Npmenv

/-! ## Path model (the subset of `pathlib.PurePosixPath` the code uses)

A path is an absolute/relative flag plus its components.  `pathlib` is
purely lexical: joining keeps `..` segments, `parent` drops the last
component, and equality compares parts.  The operating system, by
contrast, resolves `..` physically; `resolveComps` models that. -/

structure PyPath where
  absolute : Bool
  comps : List String
deriving DecidableEq

/-- Split a character list at every occurrence of the separator; the
result always has one chunk more than there are separators (so the empty
list yields one empty chunk), exactly like Python's `str.split(sep)`. -/
def splitSep (sep : Char) : List Char → List (List Char)
  | [] => [[]]
  | c :: cs =>
    if c = sep then [] :: splitSep sep cs
    else
      match splitSep sep cs with
      | [] => [[c]]
      | r :: rs => (c :: r) :: rs

/-- Components contributed by a path-segment string: `pathlib` splits on
`/` and drops empty segments and `.` segments, but keeps `..`. -/
def splitSegs (s : String) : List String :=
  ((splitSep '/' s.data).map (fun l => String.mk l)).filter
    (fun c => c ≠ "" && c ≠ ".")

/-- Whether a segment string is itself absolute. -/
def startsWithSlash (s : String) : Bool :=
  match s.data with
  | '/' :: _ => true
  | _ => false

/-- `p / s` for a segment string `s` (the `/` operator of `pathlib`):
an absolute right operand replaces the left one. -/
def pyJoin (p : PyPath) (s : String) : PyPath :=
  if startsWithSlash s then ⟨true, splitSegs s⟩
  else ⟨p.absolute, p.comps ++ splitSegs s⟩

/-- `Path.parent`: drop the last component (lexically, so the parent of
`/a/b/..` is `/a/b`). -/
def pyParent (p : PyPath) : PyPath :=
  ⟨p.absolute, p.comps.dropLast⟩

/-- `Path.name`: the last component, or the empty string. -/
def pyName (p : PyPath) : String :=
  p.comps.getLast?.getD ""

/-- `str(path)` for a POSIX path. -/
def pyStr (p : PyPath) : String :=
  if p.absolute then "/" ++ String.intercalate "/" p.comps
  else String.intercalate "/" p.comps

/-- Physical resolution of `..` segments as the operating system performs
it when a path is actually stat-ed, read or deleted (at the root, `..`
stays at the root). -/
def resolveComps (cs : List String) : List String :=
  cs.foldl (fun acc c => if c = ".." then acc.dropLast else acc ++ [c]) []

/-- `target` lies strictly inside the directory `root` (proper descendant
of the resolved root), i.e. deleting `target` only touches the managed
area. -/
def strictlyInside : List String → List String → Bool
  | [], _ :: _ => true
  | [], [] => false
  | _ :: _, [] => false
  | r :: rs, c :: cs => r == c && strictlyInside rs cs

/-! ## Filesystem model for `env_rm`

A finite map from resolved absolute component lists to nodes. -/

inductive FsNode
  | dir
  | file (content : String)
deriving DecidableEq

abbrev Fs := List (List String × FsNode)

/-- Look a path up in the filesystem; the operating system resolves `..`
segments physically before the lookup. -/
def fsLookup (fs : Fs) (cs : List String) : Option FsNode :=
  (fs.find? (fun e => e.1 == resolveComps cs)).map (fun e => e.2)

/-- Outcome of `env_rm` (string-identifier overload, lines 227-251):
the distinguished domain error, an `assert` failure, a failed
`read_text`, or a successful `rmtree` of the given resolved path. -/
inductive RmOutcome
  | npmenvException (msg : String)
  | assertionError
  | readError
  | removed (deletedPath : List String) (projDir : String)
deriving DecidableEq

/-- Embedding of `env_rm` when called with a string identifier:
`env_dir = NPMENV_DIR / env_id`; raise `NpmenvException` if it does not
exist; `assert env_dir.is_absolute()`; `assert env_dir.parent ==
NPMENV_DIR`; read `env_dir/.project`; `rmtree(env_dir)`. -/
def env_rm_str (fs : Fs) (npmenvDir : PyPath) (env_id : String) : RmOutcome :=
  let env_dir := pyJoin npmenvDir env_id
  if (fsLookup fs env_dir.comps).isNone then
    .npmenvException ("No env exists with id " ++ env_id)
  else if env_dir.absolute = false then .assertionError
  else if pyParent env_dir ≠ npmenvDir then .assertionError
  else
    match fsLookup fs (pyJoin env_dir ".project").comps with
    | some (.file content) => .removed (resolveComps env_dir.comps) content
    | _ => .readError

/-- The configured root used in the concrete counterexample filesystem. -/
def demoRoot : PyPath := ⟨true, ["data", "npmenv"]⟩

/-- Filesystem in which the parent directory of the configured root
happens to contain a `.project` file. -/
def demoFs : Fs :=
  [(["data"], .dir),
   (["data", ".project"], .file "/victim/project"),
   (["data", "npmenv"], .dir),
   (["data", "npmenv", "realenv"], .dir)]

/-- Filesystem with a directory `x` that is a sibling of the root. -/
def demoFs2 : Fs :=
  [(["data"], .dir),
   (["data", "x"], .dir),
   (["data", "npmenv"], .dir)]

/-- C1: refuted by the code.  The identifier `".."` passes both defensive
asserts — `NPMENV_DIR/".."` is lexically absolute and its lexical parent
is `NPMENV_DIR` itself — and `env_rm` then deletes the resolved target,
the parent directory of the configured root, which is not strictly inside
the root.  Moreover the traversal identifier `"../x"` fails the parent
assert and so raises `AssertionError`, not the domain error the claim
requires. -/
theorem env_rm_dotdot_escapes_root :
    env_rm_str demoFs demoRoot ".." = .removed ["data"] "/victim/project"
    ∧ strictlyInside demoRoot.comps ["data"] = false
    ∧ env_rm_str demoFs2 demoRoot "../x" = .assertionError := by
  refine ⟨?_, ?_, ?_⟩ <;> rfl

/-! ## Link Synchronizer model (`env_npm` lines 201-211 and 217-221)

One tracked file (manifest or lock) lives at a project path and at an
environment path.  What matters to the code is the kind of node at each
path: nothing, a regular file, a directory, or a symbolic link whose
target does or does not exist. -/

inductive Entry
  | absent
  | realFile
  | dir
  | symlinkTo (targetExists : Bool)
deriving DecidableEq

/-- `Path.exists()`: follows symlinks, so a broken symlink counts as not
existing (the source warns about exactly this). -/
def entryExists : Entry → Bool
  | .absent => false
  | .realFile => true
  | .dir => true
  | .symlinkTo b => b

/-- `Path.is_symlink()`: true for any symlink, broken or not. -/
def entryIsSymlink : Entry → Bool
  | .symlinkTo _ => true
  | _ => false

/-- Errors the synchronizer can raise: `os.symlink` raises
`FileExistsError` when the link path already exists, and `os.rename`
raises `NotADirectoryError` when moving a directory onto an existing
non-directory path. -/
inductive SyncErr
  | fileExists
  | notADirectory
deriving DecidableEq

/-- Pre-phase for one tracked file pair (source lines 203-211): if the
project copy exists and the environment copy is not a symlink, call
`ef.symlink_to(pf)` — which succeeds only if nothing is at the
environment path; if the project copy does not exist and the environment
copy is a symlink, unlink it.  Returns the new environment entry and
whether the filesystem was mutated. -/
def prePhase (p e : Entry) : Except SyncErr (Entry × Bool) :=
  if entryExists p then
    if entryIsSymlink e then .ok (e, false)
    else if e = .absent then .ok (.symlinkTo true, true)
    else .error .fileExists
  else
    if entryIsSymlink e then .ok (.absent, true)
    else .ok (e, false)

/-- Post-phase for one tracked file pair (source lines 218-221): if the
project copy does not exist but the environment path holds anything that
exists (the code checks `ef.exists()` only, never `is_file`), rename the
environment node onto the project path and re-create the environment
path as a symlink to the project copy.  `os.rename` fails with
`NotADirectoryError` when the node is a directory and the project path
is occupied by a (necessarily broken, since it does not "exist")
symlink.  Returns new project entry, new environment entry, and whether
the node was moved. -/
def postPhase (p e : Entry) : Except SyncErr (Entry × Entry × Bool) :=
  if ¬ entryExists p ∧ entryExists e then
    match p, e with
    | .symlinkTo _, .dir => .error .notADirectory
    | _, _ => .ok (e, .symlinkTo true, true)
  else .ok (p, e, false)

/-- C2: refuted by the code.  When the project copy and the environment
copy are both real (non-symlink) files, the pre-phase does not leave the
state alone: `ef.symlink_to(pf)` is attempted on an occupied path and
raises `FileExistsError`. -/
theorem prePhase_both_real_raises :
    prePhase .realFile .realFile = .error .fileExists := by
  rfl

/-- C2 (amended): if the project copy exists and the environment copy is
already a symlink, the pre-phase performs no mutation and raises no
error; and whenever a run of the pre-phase succeeds, running it again on
the resulting state succeeds with no further mutation (idempotence after
the first successful run). -/
theorem prePhase_noop_and_idempotent (p e : Entry) :
    (entryExists p = true → entryIsSymlink e = true →
       prePhase p e = .ok (e, false))
    ∧ (∀ e' m, prePhase p e = .ok (e', m) →
       prePhase p e' = .ok (e', false)) := by
  constructor
  · intro hp he
    simp [prePhase, hp, he]
  · intro e' m h
    by_cases hp : entryExists p = true
    · have he' : entryIsSymlink e' = true := by
        by_cases hs : entryIsSymlink e = true
        · simp [prePhase, hp, hs] at h
          rw [← h.1]
          exact hs
        · by_cases ha : e = Entry.absent
          · simp [prePhase, entryIsSymlink, hp, hs, ha] at h
            rw [← h.1]
            rfl
          · simp [prePhase, hp, hs, ha] at h
      simp [prePhase, hp, he']
    · have hp' : entryExists p = false := by simpa using hp
      by_cases hs : entryIsSymlink e = true
      · simp [prePhase, hp', hs] at h
        simp [prePhase, hp', ← h.1, entryIsSymlink]
      · simp [prePhase, hp', hs] at h
        simp [prePhase, hp', ← h.1, hs]

/-- C2 amended theorem exercised at concrete states: a correctly
symlinked pair is left untouched, and the state produced by a successful
first run (fresh symlink created for an absent environment copy) is a
fixed point of the pre-phase. -/
theorem prePhase_noop_and_idempotent_witness :
    prePhase .realFile (.symlinkTo true) = .ok (.symlinkTo true, false)
    ∧ prePhase .realFile (.symlinkTo true) = .ok (.symlinkTo true, false) :=
  ⟨(prePhase_noop_and_idempotent .realFile (.symlinkTo true)).1 rfl rfl,
   (prePhase_noop_and_idempotent .realFile .absent).2 (.symlinkTo true) true rfl⟩

/-- C4: refuted by the code.  The post-phase guard is `ef.exists()`, not
`ef.is_file()`, so a directory sitting at the environment path is
renamed into the project (and the environment path becomes a symlink to
it): a directory is promoted into the project. -/
theorem postPhase_promotes_directory :
    postPhase .absent .dir = .ok (.dir, .symlinkTo true, true) := by
  rfl

/-- C4 (amended): the post-phase moves the environment node into the
project exactly when the project copy does not exist (following
symlinks) and the environment path holds anything that exists (following
symlinks) — a regular file, but equally a directory or a live symlink —
except that renaming a directory onto a project path occupied by a
broken symlink fails; when it moves, the project receives the
environment node as-is and the environment path becomes a live symlink;
otherwise nothing changes. -/
theorem postPhase_moves_iff (p e : Entry) :
    ((entryExists p = true ∨ entryExists e = false) →
       postPhase p e = .ok (p, e, false))
    ∧ (entryExists p = false → entryExists e = true →
       (∀ b, p ≠ .symlinkTo b) ∨ e ≠ .dir →
       postPhase p e = .ok (e, .symlinkTo true, true))
    ∧ postPhase (.symlinkTo false) .dir = .error .notADirectory := by
  refine ⟨?_, ?_, rfl⟩
  · intro h
    rcases h with h | h <;> simp [postPhase, h]
  · intro hp he hne
    cases p <;> cases e <;>
      simp_all [postPhase, entryExists]

/-- C4 amended theorem exercised at concrete states: a fresh real file in
the environment with no project copy is promoted, and an agreeing pair
(project real, environment symlinked) is left alone. -/
theorem postPhase_moves_iff_witness :
    postPhase .absent .realFile = .ok (.realFile, .symlinkTo true, true)
    ∧ postPhase .realFile (.symlinkTo true) = .ok (.realFile, .symlinkTo true, false) :=
  ⟨(postPhase_moves_iff .absent .realFile).2.1 rfl rfl (.inl (fun b h => by cases h)),
   (postPhase_moves_iff .realFile (.symlinkTo true)).1 (.inl rfl)⟩

/-! ## Process model: `_cd`, `env_npm`, `env_run`

The filesystem state `env_npm` touches is the two tracked file pairs,
the environment directory and its marker file; on top of that the
process has a current working directory.  The delegated `npm` subprocess
is an oracle: an exit code plus an arbitrary effect on the filesystem
(a child process cannot change its parent's working directory). -/

structure NpmFs where
  projConfig : Entry
  projLock : Entry
  envConfig : Entry
  envLock : Entry
  envDirExists : Bool
  marker : Option String
deriving DecidableEq

structure Proc where
  fs : NpmFs
  cwd : String
deriving DecidableEq

/-- Embedding of the `_cd` context manager (source lines 50-59): record
the current working directory, change to `path`, run the body, and — in
a `finally` block, hence on every exit path, the body raising included —
change back.  The body returns its result (possibly an exception) and
the state it leaves behind. -/
def withCd {E A : Type} (path : String) (body : Proc → Except E A × Proc)
    (st : Proc) : Except E A × Proc :=
  let cwd := st.cwd
  let out := body { st with cwd := path }
  (out.1, { out.2 with cwd := cwd })

/-- Lazy initialisation at the top of `env_npm` (source lines 196-199):
create the environment directory and write the `.project` marker if the
directory does not exist yet. -/
def ensureEnvDir (projDirStr : String) (fs : NpmFs) : NpmFs :=
  if fs.envDirExists then fs
  else { fs with envDirExists := true, marker := some projDirStr }

/-- Embedding of `env_npm` (source lines 182-224): ensure the
environment directory, run the pre-phase over (config, lock), execute
`npm` inside the environment directory under `_cd`, run the post-phase
over (config, lock), and return the subprocess result.  The subprocess
is abstracted by its exit code `npmExit` and filesystem effect
`npmEff`; `subprocess.run` is called without `check`, so a nonzero exit
code never raises.  A raised exception is an `.error` paired with the
process state at the time of the raise. -/
def env_npm (projDirStr envDirPath : String) (npmExit : Int)
    (npmEff : NpmFs → NpmFs) (st : Proc) : Except SyncErr Int × Proc :=
  let fs0 := ensureEnvDir projDirStr st.fs
  match prePhase fs0.projConfig fs0.envConfig with
  | .error err => (.error err, { st with fs := fs0 })
  | .ok (ec, _) =>
    match prePhase fs0.projLock fs0.envLock with
    | .error err => (.error err, { st with fs := { fs0 with envConfig := ec } })
    | .ok (el, _) =>
      let fs1 := { fs0 with envConfig := ec, envLock := el }
      let out := withCd envDirPath
        (fun p => (.ok npmExit, { p with fs := npmEff p.fs })) { st with fs := fs1 }
      let st2 := out.2
      match postPhase st2.fs.projConfig st2.fs.envConfig with
      | .error err => (.error err, st2)
      | .ok (pc, ec2, _) =>
        match postPhase st2.fs.projLock st2.fs.envLock with
        | .error err => (.error err, { st2 with fs := { st2.fs with projConfig := pc, envConfig := ec2 } })
        | .ok (pl, el2, _) =>
          let fs3 : NpmFs :=
            { st2.fs with projConfig := pc, envConfig := ec2, projLock := pl, envLock := el2 }
          (out.1, { st2 with fs := fs3 })

/-- C6: the working directory is restored on every exit path.  The first
conjunct is the `_cd` guarantee itself, for an arbitrary body — the body
may raise (return `.error`) and may itself have moved the working
directory; the second instantiates it through `env_npm`: whatever
`env_npm` returns or raises, the process working directory afterwards
equals what it was before the call. -/
theorem cwd_restored_on_every_exit_path :
    (∀ (E A : Type) (path : String) (body : Proc → Except E A × Proc) (st : Proc),
       (withCd path body st).2.cwd = st.cwd)
    ∧ (∀ (pd ep : String) (r : Int) (eff : NpmFs → NpmFs) (st : Proc),
       (env_npm pd ep r eff st).2.cwd = st.cwd) := by
  constructor
  · intro E A path body st
    simp [withCd]
  · intro pd ep r eff st
    unfold env_npm
    dsimp only
    split
    · rfl
    · split
      · rfl
      · split
        · rfl
        · split <;> rfl

/-! ## `env_run` and the search-path construction (source lines 291-320) -/

/-- `os.pathsep` on a POSIX system. -/
def pathsep : String := ":"

/-- The state `env_run` consults: whether the environment directory and
its `node_modules/.bin` directory exist, the textual `.bin` path, and
the current process environment variables. -/
structure RunCtx where
  envDirIsDir : Bool
  binDirIsDir : Bool
  binDir : String
  osEnviron : String → Option String

inductive RunErr
  | npmenvException (msg : String)
  | keyError
deriving DecidableEq

/-- Embedding of `env_run`: raise the domain error if the environment
directory or its `.bin` directory is missing; otherwise copy the process
environment, set `PATH` to `str(bin_dir) + os.pathsep + environ["PATH"]`
(a `KeyError` if `PATH` is unset), and run the command with that
environment, returning the subprocess exit code as data. -/
def env_run (ctx : RunCtx) (exitCode : Int) :
    Except RunErr (Int × (String → Option String)) :=
  if ¬ ctx.envDirIsDir then
    .error (.npmenvException "Env does not exist (run `npmenv install`)")
  else if ¬ ctx.binDirIsDir then
    .error (.npmenvException
      "Env does not have a .bin dir (install a package with an executable first)")
  else
    match ctx.osEnviron "PATH" with
    | none => .error .keyError
    | some orig =>
      let newEnv := fun k =>
        if k = "PATH" then some (ctx.binDir ++ pathsep ++ orig) else ctx.osEnviron k
      .ok (exitCode, newEnv)

theorem splitSep_ne_nil (sep : Char) : ∀ l : List Char, splitSep sep l ≠ []
  | [] => by simp [splitSep]
  | c :: cs => by
    simp only [splitSep]
    split
    · simp
    · split <;> simp

theorem splitSep_append (sep : Char) (a b : List Char) :
    splitSep sep (a ++ sep :: b) = splitSep sep a ++ splitSep sep b := by
  induction a with
  | nil => simp [splitSep]
  | cons c cs ih =>
    by_cases hc : c = sep
    · simp [splitSep, hc, ih]
    · obtain ⟨r, rs, h⟩ : ∃ r rs, splitSep sep cs = r :: rs := by
        cases h : splitSep sep cs with
        | nil => exact absurd h (splitSep_ne_nil sep cs)
        | cons r rs => exact ⟨r, rs, rfl⟩
      have happ : (c :: cs) ++ sep :: b = c :: (cs ++ sep :: b) := rfl
      rw [happ]
      simp only [splitSep, if_neg hc]
      rw [ih, h]
      simp

theorem splitSep_of_not_mem {sep : Char} :
    ∀ {l : List Char}, sep ∉ l → splitSep sep l = [l]
  | [], _ => rfl
  | c :: cs, h => by
    have hc : ¬ c = sep := fun hcs => h (hcs ▸ List.mem_cons_self c cs)
    have ih := splitSep_of_not_mem (l := cs) (fun hm => h (List.mem_cons_of_mem c hm))
    simp only [splitSep, if_neg hc, ih]

/-- C7: when the environment and its `.bin` directory exist and `PATH`
is set, `env_run` runs the command with a copy of the process
environment that differs only at `PATH`, whose new value is the `.bin`
directory, then the path separator, then the entire original value; as
long as the `.bin` directory itself contains no separator, the entry
list of the new `PATH` is the `.bin` directory followed by the original
entries, in order, none dropped. -/
theorem env_run_prepends_bin_dir (ctx : RunCtx) (r : Int) (orig : String)
    (h1 : ctx.envDirIsDir = true) (h2 : ctx.binDirIsDir = true)
    (h3 : ctx.osEnviron "PATH" = some orig) :
    ∃ newEnv, env_run ctx r = .ok (r, newEnv)
      ∧ newEnv "PATH" = some (ctx.binDir ++ pathsep ++ orig)
      ∧ (∀ k, k ≠ "PATH" → newEnv k = ctx.osEnviron k)
      ∧ (':' ∉ ctx.binDir.data →
         splitSep ':' (ctx.binDir ++ pathsep ++ orig).data
           = ctx.binDir.data :: splitSep ':' orig.data) := by
  refine ⟨fun k =>
    if k = "PATH" then some (ctx.binDir ++ pathsep ++ orig) else ctx.osEnviron k,
    ?_, ?_, ?_, ?_⟩
  · simp [env_run, h1, h2, h3]
  · simp
  · intro k hk
    simp [hk]
  · intro hno
    have hdata : (ctx.binDir ++ pathsep ++ orig).data
        = ctx.binDir.data ++ ':' :: orig.data := by
      rw [String.data_append, String.data_append]
      simp [pathsep]
    rw [hdata, splitSep_append, splitSep_of_not_mem hno]
    simp

/-- Concrete context for exercising the `env_run` theorems. -/
def demoCtx : RunCtx :=
  { envDirIsDir := true, binDirIsDir := true, binDir := "/env/node_modules/.bin",
    osEnviron := fun k => if k = "PATH" then some "/usr/bin:/bin" else none }

/-- Context whose environment directory is missing. -/
def demoCtxNoEnv : RunCtx :=
  { envDirIsDir := false, binDirIsDir := false, binDir := "",
    osEnviron := fun _ => none }

/-- C7 exercised on a concrete context and search path. -/
theorem env_run_prepends_bin_dir_witness :
    ∃ newEnv, env_run demoCtx 3 = .ok (3, newEnv)
      ∧ newEnv "PATH" = some (demoCtx.binDir ++ pathsep ++ "/usr/bin:/bin")
      ∧ (∀ k, k ≠ "PATH" → newEnv k = demoCtx.osEnviron k)
      ∧ (':' ∉ demoCtx.binDir.data →
         splitSep ':' (demoCtx.binDir ++ pathsep ++ "/usr/bin:/bin").data
           = demoCtx.binDir.data :: splitSep ':' "/usr/bin:/bin".data) :=
  env_run_prepends_bin_dir demoCtx 3 "/usr/bin:/bin" rfl rfl (by simp [demoCtx])

/-- C8: a nonzero exit code of the delegated process is data, never an
error signal.  For `env_npm`: either the call returns the subprocess
exit code unchanged, or it raises — and then it raises the identical
error when the subprocess exits 0, so the failure never stems from the
exit code.  For `env_run`: a successful call returns the command's exit
code unchanged, and any error is likewise independent of it. -/
theorem nonzero_exit_is_data (pd ep : String) (r : Int) (eff : NpmFs → NpmFs)
    (st : Proc) (ctx : RunCtx) :
    ((env_npm pd ep r eff st).1 = .ok r
      ∨ ∃ e, (env_npm pd ep r eff st).1 = .error e
           ∧ (env_npm pd ep 0 eff st).1 = .error e)
    ∧ (∀ x env', env_run ctx r = .ok (x, env') → x = r)
    ∧ (∀ e, env_run ctx r = .error e → env_run ctx 0 = .error e) := by
  refine ⟨?_, ?_, ?_⟩
  · simp only [env_npm, withCd]
    try dsimp only
    split
    · exact .inr ⟨_, rfl, rfl⟩
    · split
      · exact .inr ⟨_, rfl, rfl⟩
      · split
        · exact .inr ⟨_, rfl, rfl⟩
        · split
          · exact .inr ⟨_, rfl, rfl⟩
          · exact .inl rfl
  · intro x env' h
    by_cases h1 : ctx.envDirIsDir = true
    · by_cases h2 : ctx.binDirIsDir = true
      · rcases h3 : ctx.osEnviron "PATH" with _ | orig
        · simp [env_run, h1, h2, h3] at h
        · simp [env_run, h1, h2, h3] at h
          omega
      · simp [env_run, h1, h2] at h
    · simp [env_run, h1] at h
  · intro e h
    by_cases h1 : ctx.envDirIsDir = true
    · by_cases h2 : ctx.binDirIsDir = true
      · rcases h3 : ctx.osEnviron "PATH" with _ | orig <;>
          simp_all [env_run, h1, h2, h3]
      · simp_all [env_run]
    · simp_all [env_run]

/-- C8 exercised concretely: the error raised by `env_run` for a missing
environment is the same whether the (never-started) command would have
exited 7 or 0. -/
theorem nonzero_exit_is_data_witness :
    env_run demoCtxNoEnv 0
      = .error (.npmenvException "Env does not exist (run `npmenv install`)") :=
  (nonzero_exit_is_data "/proj" "/env" 7 id
      ⟨⟨.absent, .absent, .absent, .absent, false, none⟩, "/work"⟩ demoCtxNoEnv).2.2
    (.npmenvException "Env does not exist (run `npmenv install`)") rfl

/-! ## Environment Registry model (`env_list`, `env_cleanup`, `env_rm` by id)

`env_list` iterates the subdirectories of the configured root; what it
consults about each candidate is whether a `.project` marker file is
present and its recorded project path, and — about that project path —
whether it is a directory and whether `package.json` / `package-lock.json`
are regular files there.  `rmFails` records whether `shutil.rmtree` on
that environment directory would raise (e.g. a permission error). -/

structure Probe where
  projIsDir : String → Bool
  configIsFile : String → Bool
  lockIsFile : String → Bool

structure RootEntry where
  name : String
  hasMarker : Bool
  marker : String
  rmFails : Bool

structure Registry where
  rootExists : Bool
  entries : List RootEntry
  probe : Probe

inductive RegErr
  | npmenvException (msg : String)
  | fileNotFound
  | osError
deriving DecidableEq

/-- Issue classification of `env_list` (source lines 276-280). -/
def issueOf (pr : Probe) (pd : String) : Option String :=
  if pr.projIsDir pd = false then some "missing"
  else if pr.configIsFile pd = false ∧ pr.lockIsFile pd = false then some "no_config"
  else none

abbrev Listed := String × String × Option String

/-- The tuples `env_list` produces: one per root entry carrying a
`.project` marker file; entries without one are silently skipped. -/
def listedOf (reg : Registry) : List Listed :=
  reg.entries.filterMap (fun it =>
    if it.hasMarker then some (it.name, it.marker, issueOf reg.probe it.marker) else none)

/-- Embedding of `env_list` (source lines 264-283): `NPMENV_DIR.iterdir()`
raises `FileNotFoundError` when the configured root does not exist. -/
def env_list (reg : Registry) : Except RegErr (List Listed) :=
  if reg.rootExists then .ok (listedOf reg) else .error .fileNotFound

/-- Embedding of `env_rm` as invoked by `env_cleanup` with an identifier
taken from `env_list` (a plain directory name): raise the domain error
if no such directory exists under the root, read its `.project` marker
(`FileNotFoundError` if absent), then `rmtree` the directory — which may
itself raise. -/
def env_rm_reg (reg : Registry) (env_id : String) : Except RegErr (String × Registry) :=
  match reg.entries.find? (fun it => it.name == env_id) with
  | none => .error (.npmenvException ("No env exists with id " ++ env_id))
  | some it =>
    if it.hasMarker then
      if it.rmFails then .error .osError
      else .ok (it.marker,
        { reg with entries := reg.entries.filter (fun e => e.name != env_id) })
    else .error .fileNotFound

/-- The loop of `env_cleanup` (source lines 256-261): walk the listing,
remove every entry whose issue is truthy, and collect it; a raised
exception aborts the loop and propagates. -/
def cleanupGo : Registry → List Listed → List Listed → Except RegErr (List Listed × Registry)
  | reg, [], acc => .ok (acc, reg)
  | reg, (env_id, pd, iss) :: rest, acc =>
    if iss.isSome then
      match env_rm_reg reg env_id with
      | .error e => .error e
      | .ok (_, reg') => cleanupGo reg' rest (acc ++ [(env_id, pd, iss)])
    else cleanupGo reg rest acc

/-- Embedding of `env_cleanup` (source lines 254-261). -/
def env_cleanup (reg : Registry) : Except RegErr (List Listed × Registry) :=
  match env_list reg with
  | .error e => .error e
  | .ok lst => cleanupGo reg lst []

/-- The flagged sublist of a listing (the entries `if issue:` selects). -/
def flaggedOnly (lst : List Listed) : List Listed :=
  lst.filter (fun x => x.2.2.isSome)

/-- C10: when the configured root directory does not exist, `env_list`
raises the ordinary file-not-found error of the directory iteration —
not the distinguished `NpmenvException` kind — and `env_cleanup`
propagates the same error. -/
theorem env_list_requires_root (reg : Registry) (h : reg.rootExists = false) :
    env_list reg = .error .fileNotFound
    ∧ env_cleanup reg = .error .fileNotFound
    ∧ ∀ msg, (RegErr.fileNotFound ≠ RegErr.npmenvException msg) := by
  refine ⟨?_, ?_, ?_⟩ <;> simp [env_list, env_cleanup, h]

/-- Probe under which every recorded project path has vanished. -/
def demoProbe : Probe := ⟨fun _ => false, fun _ => false, fun _ => false⟩

/-- Registry with an empty, nonexistent root. -/
def demoRegNoRoot : Registry := { rootExists := false, entries := [], probe := demoProbe }

/-- C10 exercised on a concrete registry state. -/
theorem env_list_requires_root_witness :
    env_list demoRegNoRoot = .error .fileNotFound
    ∧ env_cleanup demoRegNoRoot = .error .fileNotFound
    ∧ ∀ msg, (RegErr.fileNotFound ≠ RegErr.npmenvException msg) :=
  env_list_requires_root demoRegNoRoot rfl

/-- Registry with two flagged environments in which removing the first
one fails with a permission error. -/
def demoRegFail : Registry :=
  { rootExists := true,
    entries := [⟨"env1", true, "/gone1", true⟩, ⟨"env2", true, "/gone2", false⟩],
    probe := demoProbe }

/-- C3: refuted by the code.  The removal loop has no exception
handling: with two flagged environments, an unexpected failure while
removing the first aborts the whole sweep — the error propagates, the
second flagged environment is not removed, and no removed entries are
returned. -/
theorem env_cleanup_aborts_on_failure :
    env_cleanup demoRegFail = .error .osError := by
  rfl

/-! ### Helper lemmas about the registry -/

theorem name_inj {l : List RootEntry} (hnd : (l.map RootEntry.name).Nodup)
    {a b : RootEntry} (ha : a ∈ l) (hb : b ∈ l) (hn : a.name = b.name) : a = b := by
  induction l with
  | nil => cases ha
  | cons x xs ih =>
    rw [List.map_cons, List.nodup_cons] at hnd
    rcases List.mem_cons.mp ha with rfl | ha' <;>
      rcases List.mem_cons.mp hb with rfl | hb'
    · rfl
    · exact absurd (hn ▸ List.mem_map_of_mem RootEntry.name hb') hnd.1
    · exact absurd (hn ▸ List.mem_map_of_mem RootEntry.name ha') hnd.1
    · exact ih hnd.2 ha' hb'

theorem find?_of_name_nodup {l : List RootEntry}
    (hnd : (l.map RootEntry.name).Nodup) {it : RootEntry} (hmem : it ∈ l) :
    l.find? (fun e => e.name == it.name) = some it := by
  induction l with
  | nil => cases hmem
  | cons a as ih =>
    rw [List.map_cons, List.nodup_cons] at hnd
    rcases List.mem_cons.mp hmem with rfl | hmem'
    · simp [List.find?]
    · have hne : (a.name == it.name) = false := by
        apply beq_eq_false_iff_ne.mpr
        intro hEq
        exact hnd.1 (hEq ▸ List.mem_map_of_mem RootEntry.name hmem')
      rw [List.find?_cons_of_neg _ (by simp [hne]), ih hnd.2 hmem']

theorem env_rm_reg_ok {reg : Registry}
    (hnd : (reg.entries.map RootEntry.name).Nodup) {it : RootEntry}
    (hmem : it ∈ reg.entries) (hm : it.hasMarker = true) (hf : it.rmFails = false) :
    env_rm_reg reg it.name = .ok (it.marker,
      { reg with entries := reg.entries.filter (fun e => e.name != it.name) }) := by
  unfold env_rm_reg
  rw [find?_of_name_nodup hnd hmem]
  simp [hm, hf]

theorem env_rm_reg_fails_os {reg : Registry}
    (hnd : (reg.entries.map RootEntry.name).Nodup) {it : RootEntry}
    (hmem : it ∈ reg.entries) (hm : it.hasMarker = true) (hf : it.rmFails = true) :
    env_rm_reg reg it.name = .error .osError := by
  unfold env_rm_reg
  rw [find?_of_name_nodup hnd hmem]
  simp [hm, hf]

theorem mem_listedOf {reg : Registry} {x : Listed} :
    x ∈ listedOf reg ↔ ∃ it ∈ reg.entries, it.hasMarker = true
      ∧ x = (it.name, it.marker, issueOf reg.probe it.marker) := by
  simp only [listedOf, List.mem_filterMap]
  constructor
  · rintro ⟨a, ha, h⟩
    by_cases hm : a.hasMarker = true
    · rw [if_pos hm] at h
      exact ⟨a, ha, hm, (Option.some_inj.mp h).symm⟩
    · rw [if_neg hm] at h
      cases h
  · rintro ⟨a, ha, hm, rfl⟩
    exact ⟨a, ha, by rw [if_pos hm]⟩

theorem listedOf_names (reg : Registry) :
    (listedOf reg).map (fun x => x.1)
      = (reg.entries.filter (fun it => it.hasMarker)).map RootEntry.name := by
  unfold listedOf
  induction reg.entries with
  | nil => rfl
  | cons a as ih =>
    by_cases hm : a.hasMarker = true <;>
      simp [List.filterMap_cons, List.filter_cons, hm, ih]

theorem listedOf_names_nodup (reg : Registry)
    (hnd : (reg.entries.map RootEntry.name).Nodup) :
    ((listedOf reg).map (fun x => x.1)).Nodup := by
  rw [listedOf_names]
  exact hnd.sublist ((List.filter_sublist _).map _)

theorem issueOf_spec (pr : Probe) (pd : String) :
    (issueOf pr pd = some "missing" ↔ pr.projIsDir pd = false)
    ∧ (issueOf pr pd = some "no_config" ↔ pr.projIsDir pd = true
        ∧ pr.configIsFile pd = false ∧ pr.lockIsFile pd = false)
    ∧ (issueOf pr pd = none ↔ pr.projIsDir pd = true
        ∧ (pr.configIsFile pd = true ∨ pr.lockIsFile pd = true)) := by
  have hms : ("missing" : String) ≠ "no_config" := by decide
  unfold issueOf
  by_cases h1 : pr.projIsDir pd = false
  · simp [h1, hms]
  · rw [if_neg h1]
    have h1' : pr.projIsDir pd = true := by
      cases h : pr.projIsDir pd
      · exact absurd h h1
      · rfl
    by_cases h2 : pr.configIsFile pd = false ∧ pr.lockIsFile pd = false
    · simp [h2, h1', hms.symm]
    · simp [h2, h1']
      cases hc : pr.configIsFile pd
      · cases hl : pr.lockIsFile pd
        · exact absurd ⟨hc, hl⟩ h2
        · simp
      · simp

/-- Stepping the cleanup loop over an initial segment of the listing:
when every flagged tuple of `pre` corresponds to a present, marked,
removable entry (distinct names throughout), the loop reaches `rest`
having removed exactly the flagged entries of `pre` and collected them
in order. -/
theorem cleanupGo_append (pre rest : List Listed) :
    ∀ (reg : Registry) (acc : List Listed),
    (reg.entries.map RootEntry.name).Nodup →
    (pre.map (fun x => x.1)).Nodup →
    (∀ x ∈ pre, x.2.2.isSome = true →
       ∃ it ∈ reg.entries, it.name = x.1 ∧ it.hasMarker = true ∧ it.rmFails = false) →
    ∃ reg', cleanupGo reg (pre ++ rest) acc = cleanupGo reg' rest (acc ++ flaggedOnly pre)
      ∧ reg'.entries = reg.entries.filter
          (fun e => decide (e.name ∉ (flaggedOnly pre).map (fun x => x.1)))
      ∧ reg'.rootExists = reg.rootExists ∧ reg'.probe = reg.probe := by
  induction pre with
  | nil =>
    intro reg acc hndE hndP hcorr
    refine ⟨reg, by simp [flaggedOnly], ?_, rfl, rfl⟩
    exact (List.filter_eq_self.mpr (by simp [flaggedOnly])).symm
  | cons x pre' ih =>
    intro reg acc hndE hndP hcorr
    obtain ⟨env_id, pd, iss⟩ := x
    rw [List.map_cons, List.nodup_cons] at hndP
    by_cases hiss : iss.isSome = true
    · obtain ⟨it, hmem, hname, hmark, hfail⟩ :=
        hcorr (env_id, pd, iss) (List.mem_cons_self _ _) hiss
      have hrm := env_rm_reg_ok hndE hmem hmark hfail
      rw [hname] at hrm
      have hstep : cleanupGo reg (((env_id, pd, iss) :: pre') ++ rest) acc
          = cleanupGo { reg with entries := reg.entries.filter (fun e => e.name != env_id) }
              (pre' ++ rest) (acc ++ [(env_id, pd, iss)]) := by
        simp [cleanupGo, hiss, hrm]
      set reg1 : Registry :=
        { reg with entries := reg.entries.filter (fun e => e.name != env_id) } with hreg1
      have hndE1 : (reg1.entries.map RootEntry.name).Nodup :=
        hndE.sublist ((List.filter_sublist _).map _)
      have hcorr1 : ∀ y ∈ pre', y.2.2.isSome = true →
          ∃ it' ∈ reg1.entries, it'.name = y.1 ∧ it'.hasMarker = true ∧ it'.rmFails = false := by
        intro y hy hys
        obtain ⟨it', hmem', hname', hmark', hfail'⟩ :=
          hcorr y (List.mem_cons_of_mem _ hy) hys
        refine ⟨it', List.mem_filter.mpr ⟨hmem', ?_⟩, hname', hmark', hfail'⟩
        have hne : y.1 ≠ env_id := by
          intro hEq
          exact hndP.1 (hEq ▸ List.mem_map_of_mem (fun x => x.1) hy)
        simp [hname', hne]
      obtain ⟨reg2, hgo, hent, hroot2, hprobe2⟩ :=
        ih reg1 (acc ++ [(env_id, pd, iss)]) hndE1 hndP.2 hcorr1
      refine ⟨reg2, ?_, ?_, by rw [hroot2], by rw [hprobe2]⟩
      · rw [hstep, hgo]
        congr 1
        simp [flaggedOnly, List.filter_cons, hiss, List.append_assoc]
      · rw [hent, hreg1]
        dsimp only
        rw [List.filter_filter]
        apply List.filter_congr
        intro e he
        have hfc : flaggedOnly ((env_id, pd, iss) :: pre')
            = (env_id, pd, iss) :: flaggedOnly pre' := by
          simp [flaggedOnly, List.filter_cons, hiss]
        rw [hfc, List.map_cons]
        by_cases h1 : e.name = env_id
        · simp [h1, List.mem_cons, bne_self_eq_false]
        · have hbe : (e.name == env_id) = false := beq_eq_false_iff_ne.mpr h1
          by_cases h2 : e.name ∈ (flaggedOnly pre').map (fun x => x.1) <;>
            simp [h1, h2, List.mem_cons, bne, hbe]
    · have hstep : cleanupGo reg (((env_id, pd, iss) :: pre') ++ rest) acc
          = cleanupGo reg (pre' ++ rest) acc := by
        simp [cleanupGo, hiss]
      obtain ⟨reg2, hgo, hent, hroot2, hprobe2⟩ :=
        ih reg acc hndE hndP.2 (fun y hy hys => hcorr y (List.mem_cons_of_mem _ hy) hys)
      refine ⟨reg2, ?_, ?_, hroot2, hprobe2⟩
      all_goals
        have hfc : List.filter (fun x => x.2.2.isSome) ((env_id, pd, iss) :: pre')
            = List.filter (fun x => x.2.2.isSome) pre' := by
          rw [List.filter_cons]
          simp [hiss]
      · rw [hstep, hgo]
        simp only [flaggedOnly, hfc]
      · rw [hent]
        simp only [flaggedOnly, hfc]

/-- When the root exists, names are distinct, and every flagged marked
entry is removable, the sweep succeeds, returns exactly the flagged
listing, and the surviving entries are exactly those that were not
(marked and flagged). -/
theorem env_cleanup_success (reg : Registry)
    (hroot : reg.rootExists = true)
    (hnd : (reg.entries.map RootEntry.name).Nodup)
    (hok : ∀ it ∈ reg.entries, it.hasMarker = true →
      (issueOf reg.probe it.marker).isSome = true → it.rmFails = false) :
    ∃ reg', env_cleanup reg = .ok (flaggedOnly (listedOf reg), reg')
      ∧ reg'.entries = reg.entries.filter
          (fun e => !(e.hasMarker && (issueOf reg.probe e.marker).isSome)) := by
  have hcorr : ∀ x ∈ listedOf reg, x.2.2.isSome = true →
      ∃ it ∈ reg.entries, it.name = x.1 ∧ it.hasMarker = true ∧ it.rmFails = false := by
    intro x hx hxs
    obtain ⟨it, hmem, hm, rfl⟩ := mem_listedOf.mp hx
    exact ⟨it, hmem, rfl, hm, hok it hmem hm hxs⟩
  obtain ⟨reg', hgo, hent, -, -⟩ :=
    cleanupGo_append (listedOf reg) [] reg [] hnd (listedOf_names_nodup reg hnd) hcorr
  rw [List.append_nil] at hgo
  refine ⟨reg', ?_, ?_⟩
  · have hcl : env_cleanup reg = cleanupGo reg (listedOf reg) [] := by
      simp [env_cleanup, env_list, hroot]
    rw [hcl, hgo]
    simp [cleanupGo]
  · rw [hent]
    apply List.filter_congr
    intro e he
    by_cases hm : e.hasMarker = true
    · by_cases hisome : (issueOf reg.probe e.marker).isSome = true
      · have hmem : e.name ∈ (flaggedOnly (listedOf reg)).map (fun x => x.1) := by
          refine List.mem_map.mpr ⟨(e.name, e.marker, issueOf reg.probe e.marker), ?_, rfl⟩
          exact List.mem_filter.mpr ⟨mem_listedOf.mpr ⟨e, he, hm, rfl⟩, hisome⟩
        simp [hmem, hm, hisome]
      · have hnmem : e.name ∉ (flaggedOnly (listedOf reg)).map (fun x => x.1) := by
          intro hmem
          obtain ⟨y, hy, hyname⟩ := List.mem_map.mp hmem
          obtain ⟨hyl, hyflag⟩ := List.mem_filter.mp hy
          obtain ⟨it, hitmem, hitm, rfl⟩ := mem_listedOf.mp hyl
          have heq : it = e := name_inj hnd hitmem he hyname
          rw [heq] at hyflag
          exact hisome (by simpa using hyflag)
        simp [hnmem, hm, hisome]
    · have hnmem : e.name ∉ (flaggedOnly (listedOf reg)).map (fun x => x.1) := by
        intro hmem
        obtain ⟨y, hy, hyname⟩ := List.mem_map.mp hmem
        obtain ⟨hyl, hyflag⟩ := List.mem_filter.mp hy
        obtain ⟨it, hitmem, hitm, rfl⟩ := mem_listedOf.mp hyl
        have heq : it = e := name_inj hnd hitmem he hyname
        rw [heq] at hitm
        exact hm hitm
      simp [hnmem, hm]

/-- C3 (amended): `env_cleanup` has no per-entry failure isolation.
When every flagged environment can be removed, the sweep removes exactly
the flagged entries (never an unflagged one) and returns them; but if
the removal of some flagged entry fails unexpectedly while all earlier
removals succeed, the error propagates and aborts the sweep — nothing
is returned and the remaining flagged environments are not removed. -/
theorem env_cleanup_policy (reg : Registry)
    (hroot : reg.rootExists = true)
    (hnd : (reg.entries.map RootEntry.name).Nodup) :
    ((∀ it ∈ reg.entries, it.hasMarker = true →
        (issueOf reg.probe it.marker).isSome = true → it.rmFails = false) →
      ∃ reg', env_cleanup reg = .ok (flaggedOnly (listedOf reg), reg')
        ∧ reg'.entries = reg.entries.filter
            (fun e => !(e.hasMarker && (issueOf reg.probe e.marker).isSome)))
    ∧ (∀ pre x post, listedOf reg = pre ++ x :: post →
        (∀ y ∈ pre, ∀ it ∈ reg.entries, it.name = y.1 → it.rmFails = false) →
        x.2.2.isSome = true →
        (∀ it ∈ reg.entries, it.name = x.1 → it.rmFails = true) →
        env_cleanup reg = .error .osError) := by
  constructor
  · exact env_cleanup_success reg hroot hnd
  · intro pre x post hsplit hpreok hxflag hxfail
    have hnodupL : ((pre ++ x :: post).map (fun y => y.1)).Nodup := by
      rw [← hsplit]
      exact listedOf_names_nodup reg hnd
    rw [List.map_append, List.nodup_append] at hnodupL
    have hcorrPre : ∀ y ∈ pre, y.2.2.isSome = true →
        ∃ it ∈ reg.entries, it.name = y.1 ∧ it.hasMarker = true ∧ it.rmFails = false := by
      intro y hy hys
      have hyl : y ∈ listedOf reg := by
        rw [hsplit]
        exact List.mem_append_left _ hy
      obtain ⟨it, hmem, hm, rfl⟩ := mem_listedOf.mp hyl
      exact ⟨it, hmem, rfl, hm, hpreok _ hy it hmem rfl⟩
    obtain ⟨reg1, hgo, hent, -, -⟩ :=
      cleanupGo_append pre (x :: post) reg [] hnd hnodupL.1 hcorrPre
    have hxl : x ∈ listedOf reg := by
      rw [hsplit]
      exact List.mem_append_right _ (List.mem_cons_self _ _)
    obtain ⟨itx, hmemx, hmx, hxeq⟩ := mem_listedOf.mp hxl
    have hxname : x.1 = itx.name := by rw [hxeq]
    have hfailx : itx.rmFails = true := hxfail itx hmemx hxname.symm
    have hxnot : itx.name ∉ (flaggedOnly pre).map (fun y => y.1) := by
      intro hmem
      obtain ⟨y, hy, hyname⟩ := List.mem_map.mp hmem
      have hy' : y ∈ pre := (List.mem_filter.mp hy).1
      have hdis := hnodupL.2.2 (List.mem_map_of_mem (fun z => z.1) hy')
      apply hdis
      rw [hyname, ← hxname]
      exact List.mem_map_of_mem (fun y : Listed => y.1) (List.mem_cons_self x post)
    have hmem1 : itx ∈ reg1.entries := by
      rw [hent]
      exact List.mem_filter.mpr ⟨hmemx, by simpa using hxnot⟩
    have hnd1 : (reg1.entries.map RootEntry.name).Nodup := by
      rw [hent]
      exact hnd.sublist ((List.filter_sublist _).map _)
    have hrm : env_rm_reg reg1 itx.name = .error .osError :=
      env_rm_reg_fails_os hnd1 hmem1 hmx hfailx
    have hcl : env_cleanup reg = cleanupGo reg (listedOf reg) [] := by
      simp [env_cleanup, env_list, hroot]
    rw [hcl, hsplit, hgo]
    obtain ⟨env_id, pd, iss⟩ := x
    have hid : env_id = itx.name := hxname
    rw [hid] at hxflag ⊢
    simp only [] at hxflag
    simp [cleanupGo, hxflag, hrm]

/-- Registry with two flagged environments, both removable. -/
def demoRegOk : Registry :=
  { rootExists := true,
    entries := [⟨"env1", true, "/gone1", false⟩, ⟨"env2", true, "/gone2", false⟩],
    probe := demoProbe }

/-- C3 amended theorem exercised concretely: with the failing registry
the abort branch fires, taking the hypotheses at `pre = []` and the
first listed tuple. -/
theorem env_cleanup_policy_witness :
    env_cleanup demoRegFail = .error .osError :=
  (env_cleanup_policy demoRegFail rfl (by decide)).2
    [] ("env1", "/gone1", some "missing") [("env2", "/gone2", some "missing")]
    (by decide) (by decide) (by decide) (by decide)

/-- C5: every marked environment directory is classified `"missing"` when
the recorded project path is not a directory, else `"no_config"` when
neither manifest nor lock is a regular file there, else has no issue;
unmarked subdirectories are silently ignored (nothing is listed under
their name); and — all removals succeeding — `env_cleanup` returns
exactly the flagged entries and the surviving environments are exactly
the unflagged ones. -/
theorem env_list_classifies (reg : Registry)
    (hroot : reg.rootExists = true)
    (hnd : (reg.entries.map RootEntry.name).Nodup)
    (hfails : ∀ it ∈ reg.entries, it.rmFails = false) :
    (∀ env_id pd iss, (env_id, pd, iss) ∈ listedOf reg →
       ((iss = some "missing" ↔ reg.probe.projIsDir pd = false)
        ∧ (iss = some "no_config" ↔ reg.probe.projIsDir pd = true
             ∧ reg.probe.configIsFile pd = false ∧ reg.probe.lockIsFile pd = false)
        ∧ (iss = none ↔ reg.probe.projIsDir pd = true
             ∧ (reg.probe.configIsFile pd = true ∨ reg.probe.lockIsFile pd = true))))
    ∧ (∀ it ∈ reg.entries, it.hasMarker = false →
        ∀ pd iss, (it.name, pd, iss) ∉ listedOf reg)
    ∧ env_list reg = .ok (listedOf reg)
    ∧ (∃ reg', env_cleanup reg = .ok (flaggedOnly (listedOf reg), reg')
        ∧ reg'.entries = reg.entries.filter
            (fun e => !(e.hasMarker && (issueOf reg.probe e.marker).isSome))) := by
  refine ⟨?_, ?_, by simp [env_list, hroot], ?_⟩
  · intro env_id pd iss h
    obtain ⟨it, hmem, hm, heq⟩ := mem_listedOf.mp h
    simp only [Prod.ext_iff] at heq
    obtain ⟨h1, hpd, hiss⟩ := heq
    subst hpd
    subst hiss
    exact issueOf_spec reg.probe it.marker
  · intro it hmem hm pd iss h
    obtain ⟨it', hmem', hm', heq⟩ := mem_listedOf.mp h
    simp only [Prod.ext_iff] at heq
    have heqit : it' = it := name_inj hnd hmem' hmem heq.1.symm
    rw [heqit, hm] at hm'
    cases hm'
  · exact env_cleanup_success reg hroot hnd (fun it hmem _ _ => hfails it hmem)

/-- Probe for the spec's registry scenario: projects `/a` and `/b` still
exist, `/c` has vanished; only `/a` has a lock file; nobody has a
manifest. -/
def demoProbe3 : Probe :=
  ⟨fun pd => pd == "/a" || pd == "/b",
   fun _ => false,
   fun pd => pd == "/a"⟩

/-- Three marked environments: one healthy, one with no config, one
whose project is gone. -/
def demoRegThree : Registry :=
  { rootExists := true,
    entries := [⟨"envA", true, "/a", false⟩, ⟨"envB", true, "/b", false⟩,
                ⟨"envC", true, "/c", false⟩],
    probe := demoProbe3 }

/-- C5 exercised on the three-environment registry. -/
theorem env_list_classifies_witness :
    env_list demoRegThree = .ok (listedOf demoRegThree) :=
  (env_list_classifies demoRegThree rfl (by decide) (by decide)).2.2.1

/-! ## Identity Resolver: `_get_env_id` (source lines 82-88)

`hash = sha256(str(proj_dir).encode()).digest()`,
`hash_sample = urlsafe_b64encode(hash).decode()[:8]`, and the result is
`f"{proj_dir.parent.name}__{proj_dir.name}__{hash_sample}"`.  The
library primitives the source calls — UTF-8 encoding, SHA-256
(FIPS 180-4) and URL-safe base64 — are embedded in full so that the
identifier computation is a closed function of the input path. -/

def M32 : Nat := 4294967296

def rotr32 (n x : Nat) : Nat := ((x >>> n) ||| (x <<< (32 - n))) % M32

/-- The 64 SHA-256 round constants, written in decimal. -/
def shaK : List Nat :=
  [1116352408, 1899447441, 3049323471, 3921009573, 961987163, 1508970993,
   2453635748, 2870763221, 3624381080, 310598401, 607225278, 1426881987,
   1925078388, 2162078206, 2614888103, 3248222580, 3835390401, 4022224774,
   264347078, 604807628, 770255983, 1249150122, 1555081692, 1996064986,
   2554220882, 2821834349, 2952996808, 3210313671, 3336571891, 3584528711,
   113926993, 338241895, 666307205, 773529912, 1294757372, 1396182291,
   1695183700, 1986661051, 2177026350, 2456956037, 2730485921, 2820302411,
   3259730800, 3345764771, 3516065817, 3600352804, 4094571909, 275423344,
   430227734, 506948616, 659060556, 883997877, 958139571, 1322822218,
   1537002063, 1747873779, 1955562222, 2024104815, 2227730452, 2361852424,
   2428436474, 2756734187, 3204031479, 3329325298]

/-- The eight SHA-256 initial hash words, written in decimal. -/
def shaH0 : List Nat :=
  [1779033703, 3144134277, 1013904242, 2773480762,
   1359893119, 2600822924, 528734635, 1541459225]

/-- FIPS 180-4 padding: `0x80`, zeros to 56 mod 64, 8-byte big-endian
bit length. -/
def padMessage (msg : List Nat) : List Nat :=
  let len := msg.length
  let zeros := (120 - ((len + 1) % 64)) % 64
  let bitLen := (8 * len) % (2 ^ 64)
  msg ++ [128] ++ List.replicate zeros 0 ++
    (List.range 8).map (fun i => bitLen / (2 ^ (8 * (7 - i))) % 256)

/-- Split a list into chunks of `n` elements; the fuel (always called
with the list's length) only serves termination. -/
def chunkFuel : Nat → Nat → List Nat → List (List Nat)
  | 0, _, _ => []
  | _, _, [] => []
  | fuel + 1, n, l => l.take n :: chunkFuel fuel n (l.drop n)

def wordsOf (block : List Nat) : List Nat :=
  (chunkFuel block.length 4 block).map (fun b =>
    b.getD 0 0 * 16777216 + b.getD 1 0 * 65536 + b.getD 2 0 * 256 + b.getD 3 0)

def extendWords (w16 : List Nat) : List Nat :=
  (List.range 48).foldl (fun w _ =>
    let n := w.length
    let w15 := w.getD (n - 15) 0
    let w2 := w.getD (n - 2) 0
    let s0 := (rotr32 7 w15) ^^^ (rotr32 18 w15) ^^^ (w15 >>> 3)
    let s1 := (rotr32 17 w2) ^^^ (rotr32 19 w2) ^^^ (w2 >>> 10)
    w ++ [(w.getD (n - 16) 0 + s0 + w.getD (n - 7) 0 + s1) % M32]) w16

structure Hash8 where
  a : Nat
  b : Nat
  c : Nat
  d : Nat
  e : Nat
  f : Nat
  g : Nat
  h : Nat

def hashToList (s : Hash8) : List Nat := [s.a, s.b, s.c, s.d, s.e, s.f, s.g, s.h]

def roundStep (s : Hash8) (kw : Nat × Nat) : Hash8 :=
  let S1 := (rotr32 6 s.e) ^^^ (rotr32 11 s.e) ^^^ (rotr32 25 s.e)
  let ch := (s.e &&& s.f) ^^^ ((s.e ^^^ 4294967295) &&& s.g)
  let temp1 := (s.h + S1 + ch + kw.1 + kw.2) % M32
  let S0 := (rotr32 2 s.a) ^^^ (rotr32 13 s.a) ^^^ (rotr32 22 s.a)
  let maj := (s.a &&& s.b) ^^^ (s.a &&& s.c) ^^^ (s.b &&& s.c)
  let temp2 := (S0 + maj) % M32
  ⟨(temp1 + temp2) % M32, s.a, s.b, s.c, (s.d + temp1) % M32, s.e, s.f, s.g⟩

def compressBlock (hs : List Nat) (block : List Nat) : List Nat :=
  let w := extendWords (wordsOf block)
  let st0 : Hash8 := ⟨hs.getD 0 0, hs.getD 1 0, hs.getD 2 0, hs.getD 3 0,
                      hs.getD 4 0, hs.getD 5 0, hs.getD 6 0, hs.getD 7 0⟩
  let stN := (shaK.zip w).foldl roundStep st0
  List.zipWith (fun x y => (x + y) % M32) hs (hashToList stN)

/-- SHA-256 digest of a byte list (each element `< 256`). -/
def sha256 (msg : List Nat) : List Nat :=
  let padded := padMessage msg
  let blocks := chunkFuel padded.length 64 padded
  let hs := blocks.foldl compressBlock shaH0
  hs.foldr (fun word acc =>
    word / 16777216 % 256 :: word / 65536 % 256 :: word / 256 % 256 :: word % 256 :: acc) []

set_option maxRecDepth 10000 in
/-- NIST test vector for the message `"abc"`: the embedding really is
SHA-256. -/
theorem sha256_abc :
    sha256 [97, 98, 99] =
      [186, 120, 22, 191, 143, 1, 207, 234,
       65, 65, 64, 222, 93, 174, 34, 35,
       176, 3, 97, 163, 150, 23, 122, 156,
       180, 16, 255, 97, 242, 0, 21, 173] := by
  decide

def b64alphabet : List Char :=
  "ABCDEFGHIJKLMNOPQRSTUVWXYZabcdefghijklmnopqrstuvwxyz0123456789-_".data

def b64char (n : Nat) : Char := b64alphabet.getD n '='

/-- `base64.urlsafe_b64encode` over a byte list. -/
def urlsafe_b64 : List Nat → List Char
  | b1 :: b2 :: b3 :: rest =>
    let n := b1 * 65536 + b2 * 256 + b3
    b64char (n / 262144) :: b64char (n / 4096 % 64) :: b64char (n / 64 % 64) ::
      b64char (n % 64) :: urlsafe_b64 rest
  | [b1, b2] =>
    let n := b1 * 1024 + b2 * 4
    [b64char (n / 4096), b64char (n / 64 % 64), b64char (n % 64), '=']
  | [b1] => [b64char (b1 / 4), b64char ((b1 % 4) * 16), '=', '=']
  | [] => []

/-- UTF-8 encoding of one code point. -/
def utf8Bytes (c : Char) : List Nat :=
  let n := c.toNat
  if n < 128 then [n]
  else if n < 2048 then [192 + n / 64, 128 + n % 64]
  else if n < 65536 then [224 + n / 4096, 128 + n / 64 % 64, 128 + n % 64]
  else [240 + n / 262144, 128 + n / 4096 % 64, 128 + n / 64 % 64, 128 + n % 64]

/-- `str.encode()`: UTF-8 bytes of a string. -/
def strBytes (s : String) : List Nat :=
  s.data.foldr (fun c acc => utf8Bytes c ++ acc) []

/-- Embedding of `_get_env_id`: asserts the path is absolute (modelled
as `none`, the assertion failure), hashes `str(proj_dir)`, keeps the
first 8 characters of the URL-safe base64 digest, and formats
`f"{parent.name}__{name}__{hash_sample}"`. -/
def get_env_id (proj_dir : PyPath) : Option String :=
  if proj_dir.absolute = false then none
  else
    let hash := sha256 (strBytes (pyStr proj_dir))
    let hash_sample := String.mk ((urlsafe_b64 hash).take 8)
    some (pyName (pyParent proj_dir) ++ "__" ++ pyName proj_dir ++ "__" ++ hash_sample)

/-- C9: identifier computation is pure and deterministic — it is a
function of the input path alone (the whole pipeline down to the
SHA-256 rounds is closed, consulting no machine state), so two
computations on equal absolute paths return the same string, and on an
absolute path it always produces a result rather than failing its
precondition. -/
theorem get_env_id_deterministic (p q : PyPath)
    (hp : p.absolute = true) (hpq : p = q) :
    get_env_id p = get_env_id q ∧ (get_env_id p).isSome = true := by
  subst hpq
  refine ⟨rfl, ?_⟩
  simp [get_env_id, hp]

/-- C9 exercised at a concrete absolute path, twice. -/
theorem get_env_id_deterministic_witness :
    get_env_id ⟨true, ["home", "alice", "proj"]⟩
        = get_env_id ⟨true, ["home", "alice", "proj"]⟩
      ∧ (get_env_id ⟨true, ["home", "alice", "proj"]⟩).isSome = true :=
  get_env_id_deterministic ⟨true, ["home", "alice", "proj"]⟩
    ⟨true, ["home", "alice", "proj"]⟩ rfl rfl

end Npmenv
